import Mathlib

/-!
Shallow embedding of `src/blockchain.js` (class `Blockchain`) from the
privateBlockchain repository, together with proofs about its operations.

The chain is an in-memory array of blocks; every method of the class is a
pure function here, with the clock readings, the hash function and the
signature verifier passed in as explicit parameters.  Promise rejection is
modelled with `Except`; a promise that can never settle (an exception thrown
inside an `async` Promise executor, which swallows the throw without calling
`reject`) is modelled with a dedicated `stuck` result constructor.
-/

namespace PrivateBlockchain

/-- Modelled from the spec: the block body codec lives in `block.js` (not
under `src/`) and the external `hex2ascii`/`JSON` libraries.  A body is an
opaque encoded payload: the fixed genesis marker, an encoded claim record
`{address, signature, message, star}`, or a corrupt payload on which
`JSON.parse(hex2ascii(body))` throws. -/
inductive BodyVal where
  | genesisB (data : String)
  | claimB (address signature message starData : String)
  | corrupt (raw : String)
  deriving DecidableEq

/-- A block of the chain: the five fields of `block.js` as used by
`blockchain.js`.  `previousBlockHash` is `Option String` because the source
stores the JS `null` sentinel there for the genesis block. -/
structure Block where
  hash : String
  height : Nat
  body : BodyVal
  time : Int
  previousBlockHash : Option String
  deriving DecidableEq

/-- The `Blockchain` instance state: `this.chain` and `this.height`. -/
structure BCState where
  chain : List Block
  height : Int
  deriving DecidableEq

/-- Modelled from the spec: the hash collaborator (`crypto-js/sha256` over
`JSON.stringify`) is a deterministic pure function of the block fields other
than the stored hash: {height, time, previousBlockHash, body}. -/
def HashFn : Type := Nat → Int → Option String → BodyVal → String

/-- Modelled from the spec: the `Block` constructor of `block.js` (not under
`src/`).  Only `previousBlockHash` matters to the claims: the constructor
leaves it at the empty/sentinel value (`null`, here `none`); `_addBlock`
overwrites every other field before the block is stored. -/
def mkBlock (body : BodyVal) : Block :=
  { hash := "", height := 0, body := body, time := 0, previousBlockHash := none }

/-- `_addBlock(block)`: set `time` to the current clock reading (seconds),
set `height := chain.length`, set `previousBlockHash` to the last block's
hash when the chain is non-empty (`getLast? = some _` iff `chain.length > 0`),
compute the hash, increment `this.height` and push the block.  Returns the
updated state together with the block the promise resolves with. -/
def _addBlock (hf : HashFn) (now : Int) (st : BCState) (b : Block) : BCState × Block :=
  let b1 : Block := { b with time := now, height := st.chain.length }
  let b2 : Block :=
    match st.chain.getLast? with
    | some lastB => { b1 with previousBlockHash := some lastB.hash }
    | none => b1
  let b3 : Block := { b2 with hash := hf b2.height b2.time b2.previousBlockHash b2.body }
  ({ chain := st.chain ++ [b3], height := st.height + 1 }, b3)

/-- `initializeChain()`: when `height === -1`, append a genesis block built
from `{data: 'Genesis Block'}`. -/
def initializeChain (hf : HashFn) (now : Int) (st : BCState) : BCState :=
  if st.height = -1 then (_addBlock hf now st (mkBlock (.genesisB "Genesis Block"))).1
  else st

/-- The state right after the constructor (`chain = []`, `height = -1`)
followed by the `initializeChain()` call it fires. -/
def initState (hf : HashFn) (now : Int) : BCState :=
  initializeChain hf now { chain := [], height := -1 }

/-- `getChainHeight()`: resolves with `this.height`. -/
def getChainHeight (st : BCState) : Int :=
  st.height

/-- The states a `Blockchain` instance can be in: the initialized state, plus
any sequence of `_addBlock` appends on freshly constructed blocks (the only
writers in the source are `initializeChain` and `submitStar`, both of which
go through `_addBlock`). -/
inductive Reachable (hf : HashFn) : BCState → Prop where
  | init (now : Int) : Reachable hf (initState hf now)
  | add (now : Int) (body : BodyVal) (st : BCState) :
      Reachable hf st → Reachable hf (_addBlock hf now st (mkBlock body)).1

/-- JS `message.split(':')` on the character list: every occurrence of the
separator splits, empty pieces are kept (`"a:" → ["a", ""]`). -/
def splitColonAux : List Char → List Char → List String
  | [], acc => [String.mk acc.reverse]
  | c :: rest, acc =>
    if c = ':' then String.mk acc.reverse :: splitColonAux rest []
    else splitColonAux rest (c :: acc)

/-- JS `message.split(':')`. -/
def splitColon (s : String) : List String :=
  splitColonAux s.toList []

/-- The numeric value of a digit string. -/
def digitsVal (ds : List Char) : Nat :=
  ds.foldl (fun a c => a * 10 + (c.toNat - 48)) 0

/-- JS `parseInt` on a string, decimal form: skip leading whitespace, an
optional sign, then the longest digit prefix; `none` models `NaN` (no digit
prefix).  The hexadecimal `0x` form of `parseInt` is not modelled: the
timestamps parsed here are decimal digit strings. -/
def parseIntJS (s : String) : Option Int :=
  let cs := s.toList.dropWhile Char.isWhitespace
  let p : Bool × List Char :=
    match cs with
    | '-' :: rest => (true, rest)
    | '+' :: rest => (false, rest)
    | _ => (false, cs)
  let ds := p.2.takeWhile Char.isDigit
  if ds.isEmpty then none
  else some (if p.1 then -(digitsVal ds : Int) else (digitsVal ds : Int))

/-- The two distinct rejection sites of `submitStar` (the source rejects with
`null` after logging a distinct message at each site; the spec names them
`ExpiredChallenge` and `InvalidSignature`). -/
inductive SubmitErr where
  | expiredChallenge
  | invalidSignature
  deriving DecidableEq

/-- `submitStar(address, message, signature, star)`.
`sent_time = parseInt(message.split(':')[1])` (an out-of-range index is JS
`undefined`, and `parseInt(undefined)` is `NaN`, modelled by `none`);
`minutes_laps = (curr_time - sent_time) / 60` is real-number division, taken
in `ℚ`; `NaN < 5` is `false`, so an unparseable timestamp falls into the
time-lapse rejection branch.  On `minutes_laps < 5` and a verifying
signature, a block with body `{address, signature, message, star}` is
appended.  `currTime` and `blockTime` are the two clock readings (seconds)
taken by `submitStar` and `_addBlock` respectively. -/
def submitStar (hf : HashFn) (verify : String → String → String → Bool)
    (currTime blockTime : Int) (st : BCState)
    (address message signature starData : String) : BCState × Except SubmitErr Block :=
  match ((splitColon message)[1]?).bind parseIntJS with
  | none => (st, .error .expiredChallenge)
  | some sentTime =>
    if ((currTime : ℚ) - (sentTime : ℚ)) / 60 < 5 then
      if verify message address signature then
        let r := _addBlock hf blockTime st (mkBlock (.claimB address signature message starData))
        (r.1, .ok r.2)
      else (st, .error .invalidSignature)
    else (st, .error .expiredChallenge)

deriving instance DecidableEq for Except

/-- Modelled from the spec: `block.validate()` of `block.js` (not under
`src/`) recomputes the block's hash from its stored fields (excluding the
stored hash) and compares it with the stored hash, resolving with a
boolean. -/
def selfCheck (hf : HashFn) (b : Block) : Bool :=
  hf b.height b.time b.previousBlockHash b.body == b.hash

/-- The body of the `validateChain` loop at index `i` (with `n` the awaited
chain height): `none` models a thrown exception (`self.chain[i]` is
`undefined`); otherwise `some v` where `v` says whether index `i` is pushed
onto `errorLog`.  At `i == n` only `(!blocki_valid) === true` is tested and
the loop breaks; otherwise the same test is disjoined with
`blockHash !== prevHash` (a JS string against a string-or-null value). -/
def violationAt (hf : HashFn) (chain : List Block) (n i : Nat) : Option Bool :=
  match chain[i]? with
  | none => none
  | some b =>
    if i = n then some (!(selfCheck hf b))
    else
      match chain[i + 1]? with
      | none => none
      | some b2 => some ((!(selfCheck hf b)) || !(b2.previousBlockHash == some b.hash))

/-- The `validateChain` loop `for i = 0; i <= chainlen` folded over its index
list, accumulating `errorLog`; a thrown exception (`none`) aborts the loop
and the promise never settles. -/
def valFold (hf : HashFn) (chain : List Block) (n : Nat) : Option (List Nat) :=
  (List.range (n + 1)).foldl
    (fun acc i => acc.bind fun log =>
      (violationAt hf chain n i).map fun v => if v then log ++ [i] else log)
    (some [])

/-- What the `validateChain` promise does: resolve with the boolean `true`
(`errorLog.length == 0`), resolve with the non-empty `errorLog`, or never
settle (an exception inside the `async` executor is swallowed and `reject`
is never reached). -/
inductive ValidateResult where
  | boolTrue
  | errors (log : List Nat)
  | stuck
  deriving DecidableEq

/-- `validateChain()`: `chainlen = await getChainHeight()`; when
`chainlen < 0` the loop body never runs and the empty `errorLog` makes the
promise resolve with `true`. -/
def validateChain (hf : HashFn) (st : BCState) : ValidateResult :=
  if st.height < 0 then .boolTrue
  else
    match valFold hf st.chain st.height.toNat with
    | none => .stuck
    | some [] => .boolTrue
    | some log => .errors log

/-- Modelled from the spec: the decoded form of a block body as
`JSON.parse(hex2ascii(body))` sees it in `getStarsByWalletAddress`.  `none`
models a thrown parse error on a corrupt body; a parsed object carries its
(possibly `undefined`, i.e. `none`) `address` and `star` fields. -/
structure ParsedBody where
  addr : Option String
  starField : Option String
  deriving DecidableEq

/-- Modelled from the spec: decoding a body.  The genesis marker parses to an
object with no `address`/`star` fields; an encoded claim record parses back
to its fields (the codec is symmetric); a corrupt body throws. -/
def bodyParse : BodyVal → Option ParsedBody
  | .genesisB _ => some { addr := none, starField := none }
  | .claimB a _s _m star2 => some { addr := some a, starField := some star2 }
  | .corrupt _ => none

/-- What the `getStarsByWalletAddress` promise does: resolve with the `stars`
array (elements `{address, star}`, each field possibly `undefined`), or never
settle (a decode exception inside the `async` executor is swallowed). -/
inductive StarsResult where
  | resolved (stars : List (Option String × Option String))
  | stuck
  deriving DecidableEq

/-- One iteration of the `getStarsByWalletAddress` loop at index `i`: the
block's body is decoded (a throw aborts the loop, `none`) and
`{address: thisadd, star: decode_body.star}` is pushed onto `stars` when
`thisadd == address`. -/
def starsStep (chain : List Block) (address : String)
    (acc : Option (List (Option String × Option String))) (i : Nat) :
    Option (List (Option String × Option String)) :=
  acc.bind fun stars =>
    match chain[i]? with
    | none => none
    | some b =>
      match bodyParse b.body with
      | none => none
      | some o =>
        some (if o.addr = some address then stars ++ [(o.addr, o.starField)] else stars)

/-- The `getStarsByWalletAddress` loop `for i = 1; i <= chainlen` folded over
its index list. -/
def starsFold (chain : List Block) (address : String) (n : Nat) :
    Option (List (Option String × Option String)) :=
  (List.range' 1 n).foldl (starsStep chain address) (some [])

/-- `getStarsByWalletAddress(address)`: `chainlen = await getChainHeight()`;
the loop starts at 1 (skip genesis) and runs while `i <= chainlen` (for a
negative `chainlen` it never runs, hence `Int.toNat`). -/
def getStarsByWalletAddress (st : BCState) (address : String) : StarsResult :=
  match starsFold st.chain address st.height.toNat with
  | none => .stuck
  | some stars => .resolved stars

/-- All blocks of the chain pass `selfCheck` and every adjacent pair is
correctly linked: the untampered chains of the spec. -/
def UntamperedB (hf : HashFn) (chain : List Block) : Bool :=
  chain.all (fun b => selfCheck hf b) &&
    (List.range chain.length).all fun i =>
      match chain[i]?, chain[i + 1]? with
      | some b, some b2 => b2.previousBlockHash == some b.hash
      | _, _ => true

/-- A concrete hash function used by the witnesses. -/
def hfEx : HashFn :=
  fun h t p _ => "B" ++ toString h ++ "|" ++ toString t ++ "|" ++ toString (p.getD "null")

/-- A signature verifier that rejects everything (witnesses). -/
def vFalse : String → String → String → Bool := fun _ _ _ => false

/-- A signature verifier that accepts everything (witnesses). -/
def vTrue : String → String → String → Bool := fun _ _ _ => true

/-- The freshly initialized example state (genesis only). -/
def stEx1 : BCState := initState hfEx 7

/-- The example state after one star submission by address `"a"`. -/
def stEx2 : BCState :=
  (_addBlock hfEx 8 stEx1 (mkBlock (.claimB "a" "s" "a:8:starRegistry" "Orion"))).1

theorem stEx1_reachable : Reachable hfEx stEx1 :=
  Reachable.init 7

theorem stEx2_reachable : Reachable hfEx stEx2 :=
  Reachable.add 8 (.claimB "a" "s" "a:8:starRegistry" "Orion") stEx1 (Reachable.init 7)

/-! ### The time-window arithmetic of `submitStar` -/

/-- `(curr_time - sent_time) / 60 < 5` in real arithmetic is exactly
`curr_time - sent_time < 300` on the integer clock readings. -/
theorem minutes_iff (c s : Int) :
    ((c : ℚ) - (s : ℚ)) / 60 < 5 ↔ c - s < 300 := by
  rw [div_lt_iff₀ (by norm_num : (0:ℚ) < 60)]
  rw [show ((c : ℚ) - (s : ℚ)) = ((c - s : Int) : ℚ) by push_cast; ring]
  rw [show (5 : ℚ) * 60 = ((300 : Int) : ℚ) by norm_num]
  exact Int.cast_lt

/-- `submitStar` on a message whose second colon-field does not parse as an
integer (`parseInt` gives `NaN`): the `NaN < 5` comparison is false and the
time-lapse rejection fires. -/
theorem submitStar_parse_none (hf : HashFn) (verify : String → String → String → Bool)
    (currTime blockTime : Int) (st : BCState) (address message signature starData : String)
    (hp : ((splitColon message)[1]?).bind parseIntJS = none) :
    submitStar hf verify currTime blockTime st address message signature starData =
      (st, .error .expiredChallenge) := by
  unfold submitStar
  rw [hp]

/-- `submitStar` on a message whose second colon-field parses as `sentTime`,
with the time-window test restated over the integers. -/
theorem submitStar_parse_some (hf : HashFn) (verify : String → String → String → Bool)
    (currTime blockTime : Int) (st : BCState) (address message signature starData : String)
    (sentTime : Int)
    (hp : ((splitColon message)[1]?).bind parseIntJS = some sentTime) :
    submitStar hf verify currTime blockTime st address message signature starData =
      (if currTime - sentTime < 300 then
        if verify message address signature then
          ((_addBlock hf blockTime st (mkBlock (.claimB address signature message starData))).1,
            .ok (_addBlock hf blockTime st (mkBlock (.claimB address signature message starData))).2)
        else (st, .error .invalidSignature)
      else (st, .error .expiredChallenge)) := by
  unfold submitStar
  rw [hp]
  dsimp only
  by_cases h : currTime - sentTime < 300
  · rw [if_pos ((minutes_iff currTime sentTime).mpr h), if_pos h]
  · rw [if_neg (fun hq => h ((minutes_iff currTime sentTime).mp hq)), if_neg h]

/-- C2: a submission whose embedded timestamp is at least 300 seconds older
than the current time (both in seconds) is rejected through the time-lapse
path (`ExpiredChallenge`) with the ledger unchanged, and a submission
strictly younger than 300 seconds is never rejected on the time check. -/
theorem submitStar_expired_window (hf : HashFn) (verify : String → String → String → Bool)
    (currTime blockTime : Int) (st : BCState) (address message signature starData : String)
    (sentTime : Int)
    (hp : ((splitColon message)[1]?).bind parseIntJS = some sentTime) :
    (300 ≤ currTime - sentTime →
      submitStar hf verify currTime blockTime st address message signature starData =
        (st, .error .expiredChallenge)) ∧
    (currTime - sentTime < 300 →
      (submitStar hf verify currTime blockTime st address message signature starData).2 ≠
        Except.error SubmitErr.expiredChallenge) := by
  rw [submitStar_parse_some hf verify currTime blockTime st address message signature starData
    sentTime hp]
  constructor
  · intro h
    rw [if_neg (by omega)]
  · intro h
    rw [if_pos h]
    by_cases hv : verify message address signature = true
    · rw [if_pos hv]
      simp
    · rw [if_neg hv]
      simp

theorem submitStar_expired_window_witness :
    (((splitColon "a:100:starRegistry")[1]?).bind parseIntJS = some 100) ∧
    ((300 ≤ (400 : Int) - 100 →
      submitStar hfEx vFalse 400 400 stEx1 "a" "a:100:starRegistry" "sig" "star" =
        (stEx1, .error .expiredChallenge)) ∧
    ((400 : Int) - 100 < 300 →
      (submitStar hfEx vFalse 400 400 stEx1 "a" "a:100:starRegistry" "sig" "star").2 ≠
        Except.error SubmitErr.expiredChallenge)) :=
  ⟨by decide,
    submitStar_expired_window hfEx vFalse 400 400 stEx1 "a" "a:100:starRegistry" "sig" "star"
      100 (by decide)⟩

/-- C3: a well-formed, non-expired submission whose signature does not verify
is rejected through the verification-failure path (`InvalidSignature`), and
on any `submitStar` rejection the state — hence the ledger — is exactly the
input state (no block is appended and rolled back). -/
theorem submitStar_invalid_signature_atomic (hf : HashFn)
    (verify : String → String → String → Bool) (currTime blockTime : Int) (st : BCState)
    (address message signature starData : String) :
    (∀ sentTime : Int,
      ((splitColon message)[1]?).bind parseIntJS = some sentTime →
      currTime - sentTime < 300 →
      verify message address signature = false →
      submitStar hf verify currTime blockTime st address message signature starData =
        (st, .error .invalidSignature)) ∧
    (∀ e : SubmitErr,
      (submitStar hf verify currTime blockTime st address message signature starData).2 =
        .error e →
      (submitStar hf verify currTime blockTime st address message signature starData).1 = st) := by
  constructor
  · intro sentTime hp hlt hv
    rw [submitStar_parse_some hf verify currTime blockTime st address message signature starData
      sentTime hp]
    rw [if_pos hlt, if_neg (by simp [hv])]
  · intro e
    cases hpp : ((splitColon message)[1]?).bind parseIntJS with
    | none =>
      rw [submitStar_parse_none hf verify currTime blockTime st address message signature
        starData hpp]
      intro _
      rfl
    | some sentTime =>
      rw [submitStar_parse_some hf verify currTime blockTime st address message signature
        starData sentTime hpp]
      by_cases hlt : currTime - sentTime < 300
      · rw [if_pos hlt]
        by_cases hv : verify message address signature = true
        · rw [if_pos hv]
          intro hcontra
          exact absurd hcontra (by simp)
        · rw [if_neg hv]
          intro _
          rfl
      · rw [if_neg hlt]
        intro _
        rfl

theorem submitStar_invalid_signature_atomic_witness :
    (∀ sentTime : Int,
      ((splitColon "a:100:starRegistry")[1]?).bind parseIntJS = some sentTime →
      (200 : Int) - sentTime < 300 →
      vFalse "a:100:starRegistry" "a" "sig" = false →
      submitStar hfEx vFalse 200 200 stEx1 "a" "a:100:starRegistry" "sig" "star" =
        (stEx1, .error .invalidSignature)) ∧
    (∀ e : SubmitErr,
      (submitStar hfEx vFalse 200 200 stEx1 "a" "a:100:starRegistry" "sig" "star").2 =
        .error e →
      (submitStar hfEx vFalse 200 200 stEx1 "a" "a:100:starRegistry" "sig" "star").1 = stEx1) :=
  submitStar_invalid_signature_atomic hfEx vFalse 200 200 stEx1 "a" "a:100:starRegistry"
    "sig" "star"

/-- C4 (counterexample): the message `"a:1000:b:c"` has four colon-separated
fields, yet `submitStar` does not fail at all: with a verifying signature the
claim block is appended (the chain grows to length 2).  There is no message
shape check and no `MalformedChallenge` rejection path in the source. -/
theorem submitStar_no_shape_check_counterexample :
    (splitColon "a:1000:b:c").length = 4 ∧
    (submitStar hfEx vTrue 1000 1000 stEx1 "a" "a:1000:b:c" "sig" "star").2 ≠
      Except.error SubmitErr.expiredChallenge ∧
    (submitStar hfEx vTrue 1000 1000 stEx1 "a" "a:1000:b:c" "sig" "star").2 ≠
      Except.error SubmitErr.invalidSignature ∧
    ((submitStar hfEx vTrue 1000 1000 stEx1 "a" "a:1000:b:c" "sig" "star").1).chain.length = 2 := by
  rw [submitStar_parse_some hfEx vTrue 1000 1000 stEx1 "a" "a:1000:b:c" "sig" "star" 1000
    (by decide)]
  decide

/-- C4 (amended): `submitStar` performs no message-shape check.  A message
whose second colon-separated field is missing or does not parse as an integer
is rejected through the time-lapse path (the `NaN < 5` comparison is false),
with the ledger unchanged; any message with a parseable second field — with
three fields or otherwise — goes straight to the time-window and signature
checks. -/
theorem submitStar_no_shape_check (hf : HashFn) (verify : String → String → String → Bool)
    (currTime blockTime : Int) (st : BCState) (address message signature starData : String)
    (hp : ((splitColon message)[1]?).bind parseIntJS = none) :
    submitStar hf verify currTime blockTime st address message signature starData =
      (st, .error .expiredChallenge) :=
  submitStar_parse_none hf verify currTime blockTime st address message signature starData hp

theorem submitStar_no_shape_check_witness :
    (((splitColon "nodigitsanywhere")[1]?).bind parseIntJS = none) ∧
    submitStar hfEx vTrue 50 50 stEx1 "a" "nodigitsanywhere" "sig" "star" =
      (stEx1, .error .expiredChallenge) :=
  ⟨by decide,
    submitStar_no_shape_check hfEx vTrue 50 50 stEx1 "a" "nodigitsanywhere" "sig" "star"
      (by decide)⟩

/-! ### Ledger invariants under `_addBlock` -/

/-- The fields of the state and block produced by `_addBlock` on a freshly
constructed block. -/
theorem _addBlock_spec (hf : HashFn) (now : Int) (st : BCState) (body : BodyVal) :
    ((_addBlock hf now st (mkBlock body)).1).chain
        = st.chain ++ [(_addBlock hf now st (mkBlock body)).2] ∧
    ((_addBlock hf now st (mkBlock body)).1).height = st.height + 1 ∧
    ((_addBlock hf now st (mkBlock body)).2).height = st.chain.length ∧
    ((_addBlock hf now st (mkBlock body)).2).previousBlockHash
        = (st.chain.getLast?).map Block.hash := by
  cases h : st.chain.getLast? <;>
    simp [_addBlock, mkBlock, h]

/-- The invariants every reachable `Blockchain` state satisfies: a non-empty
chain, the `height` field tracking `chain.length - 1`, contiguous block
heights `0, 1, 2, …`, the genesis sentinel `previousBlockHash`, and the hash
chain linkage. -/
theorem reachable_inv (hf : HashFn) (st : BCState) (h : Reachable hf st) :
    st.chain ≠ [] ∧
    st.height = (st.chain.length : Int) - 1 ∧
    st.chain.map Block.height = List.range st.chain.length ∧
    (∀ b, st.chain[0]? = some b → b.previousBlockHash = none) ∧
    (∀ i b b2, st.chain[i]? = some b → st.chain[i + 1]? = some b2 →
      b2.previousBlockHash = some b.hash) := by
  induction h with
  | init now =>
    refine ⟨?_, ?_, ?_, ?_, ?_⟩ <;>
      simp [initState, initializeChain, _addBlock, mkBlock, List.range_succ]
  | add now body st hst ih =>
    obtain ⟨hne, hh, hmap, hhead, hlink⟩ := ih
    obtain ⟨hchain, hht, hnh, hnp⟩ := _addBlock_spec hf now st body
    set nb := (_addBlock hf now st (mkBlock body)).2 with hnb
    have hlen : 0 < st.chain.length := List.length_pos.mpr hne
    refine ⟨?_, ?_, ?_, ?_, ?_⟩
    · rw [hchain]
      simp
    · rw [hht, hchain, hh]
      simp
    · rw [hchain, List.map_append, hmap]
      simp [List.range_succ, hnh]
    · intro b hb
      rw [hchain, List.getElem?_append_left hlen] at hb
      exact hhead b hb
    · intro i b b2 hb hb2
      rw [hchain] at hb hb2
      rcases Nat.lt_trichotomy (i + 1) st.chain.length with hi | hi | hi
      · rw [List.getElem?_append_left (by omega)] at hb
        rw [List.getElem?_append_left hi] at hb2
        exact hlink i b b2 hb hb2
      · rw [List.getElem?_append_left (by omega)] at hb
        rw [List.getElem?_append_right (by omega)] at hb2
        rw [hi, Nat.sub_self] at hb2
        simp at hb2
        rw [← hb2, hnp, List.getLast?_eq_getElem?]
        have h1 : st.chain.length - 1 = i := by omega
        rw [h1, hb]
        rfl
      · rw [List.getElem?_append_right (by omega),
          List.getElem?_eq_none_iff.mpr (by simp; omega)] at hb2
        exact absurd hb2 (by simp)

/-- C1: after any sequence of successful appends, every block is linked to
its predecessor — `block[i+1].previousBlockHash = block[i].hash` — and the
genesis block at index 0 carries the empty/sentinel `previousBlockHash`. -/
theorem hash_chain_linkage (hf : HashFn) (st : BCState) (h : Reachable hf st) :
    (∀ b, st.chain[0]? = some b → b.previousBlockHash = none) ∧
    (∀ i b b2, st.chain[i]? = some b → st.chain[i + 1]? = some b2 →
      b2.previousBlockHash = some b.hash) :=
  ⟨(reachable_inv hf st h).2.2.2.1, (reachable_inv hf st h).2.2.2.2⟩

theorem hash_chain_linkage_witness :
    (∀ b, stEx2.chain[0]? = some b → b.previousBlockHash = none) ∧
    (∀ i b b2, stEx2.chain[i]? = some b → stEx2.chain[i + 1]? = some b2 →
      b2.previousBlockHash = some b.hash) :=
  hash_chain_linkage hfEx stEx2 stEx2_reachable

/-- C9: every reachable state is non-empty (the genesis block is present from
initialization on), the block heights are exactly `0, 1, 2, …` with no gaps,
and `_addBlock` assigns the new block's height as the ledger's current
length. -/
theorem heights_contiguous (hf : HashFn) (st : BCState) (h : Reachable hf st) :
    st.chain ≠ [] ∧
    st.chain.map Block.height = List.range st.chain.length ∧
    ∀ now body, ((_addBlock hf now st (mkBlock body)).2).height = st.chain.length :=
  ⟨(reachable_inv hf st h).1, (reachable_inv hf st h).2.2.1,
    fun now body => (_addBlock_spec hf now st body).2.2.1⟩

theorem heights_contiguous_witness :
    stEx2.chain ≠ [] ∧
    stEx2.chain.map Block.height = List.range stEx2.chain.length ∧
    ∀ now body, ((_addBlock hfEx now stEx2 (mkBlock body)).2).height = stEx2.chain.length :=
  heights_contiguous hfEx stEx2 stEx2_reachable

/-- C10: in every reachable state the stored `height` field equals
`chain.length - 1`, and `getChainHeight` resolves with exactly that value. -/
theorem height_tracks_length (hf : HashFn) (st : BCState) (h : Reachable hf st) :
    st.height = (st.chain.length : Int) - 1 ∧
    getChainHeight st = (st.chain.length : Int) - 1 :=
  ⟨(reachable_inv hf st h).2.1, (reachable_inv hf st h).2.1⟩

theorem height_tracks_length_witness :
    stEx1.height = (stEx1.chain.length : Int) - 1 ∧
    getChainHeight stEx1 = (stEx1.chain.length : Int) - 1 :=
  height_tracks_length hfEx stEx1 stEx1_reachable

/-! ### The `validateChain` loop -/

/-- The `errorLog` accumulation: as long as no iteration throws, the loop
computes the filter of its index list by the violation test, in order. -/
theorem errorLog_foldl (f : Nat → Option Bool) :
    ∀ (l : List Nat) (acc : List Nat), (∀ i ∈ l, (f i).isSome) →
      l.foldl (fun a i => a.bind fun log => (f i).map fun v => if v then log ++ [i] else log)
          (some acc)
        = some (acc ++ l.filter fun i => (f i).getD false) := by
  intro l
  induction l with
  | nil =>
    intro acc _
    simp
  | cons x xs ih =>
    intro acc hall
    obtain ⟨v, hv⟩ := Option.isSome_iff_exists.mp (hall x (by simp))
    rw [List.foldl_cons]
    have hstep :
        ((some acc).bind fun log => (f x).map fun v2 => if v2 then log ++ [x] else log)
          = some (if v then acc ++ [x] else acc) := by
      rw [hv]
      rfl
    rw [hstep, ih _ (fun i hi => hall i (List.mem_cons_of_mem x hi))]
    rw [List.filter_cons]
    cases v with
    | true => simp [hv]
    | false => simp [hv]

/-- No iteration of the `validateChain` loop throws when the loop bound is
`chain.length - 1`, the invariant the `height` field maintains. -/
theorem violationAt_isSome (hf : HashFn) (chain : List Block) (n i : Nat)
    (hn : n + 1 = chain.length) (hi : i ≤ n) :
    (violationAt hf chain n i).isSome := by
  unfold violationAt
  have h1 : i < chain.length := by omega
  rw [List.getElem?_eq_getElem h1]
  dsimp only
  by_cases he : i = n
  · rw [if_pos he]
    rfl
  · rw [if_neg he]
    have h2 : i + 1 < chain.length := by omega
    rw [List.getElem?_eq_getElem h2]
    rfl

/-- On an untampered chain no index is flagged. -/
theorem violationAt_untampered (hf : HashFn) (chain : List Block) (n i : Nat)
    (hn : n + 1 = chain.length) (hi : i ≤ n) (hu : UntamperedB hf chain = true) :
    violationAt hf chain n i = some false := by
  unfold UntamperedB at hu
  rw [Bool.and_eq_true, List.all_eq_true, List.all_eq_true] at hu
  obtain ⟨hu1, hu2⟩ := hu
  unfold violationAt
  have h1 : i < chain.length := by omega
  rw [List.getElem?_eq_getElem h1]
  have hsc : selfCheck hf chain[i] = true := hu1 chain[i] (List.getElem_mem h1)
  dsimp only
  by_cases he : i = n
  · rw [if_pos he, hsc]
    rfl
  · rw [if_neg he]
    have h2 : i + 1 < chain.length := by omega
    rw [List.getElem?_eq_getElem h2]
    have hl := hu2 i (List.mem_range.mpr h1)
    rw [List.getElem?_eq_getElem h1, List.getElem?_eq_getElem h2] at hl
    simp only [] at hl
    dsimp only
    rw [hsc, hl]
    rfl

/-- C5 (amended): on an untampered chain (with the `height` field at its
maintained value) `validateChain` accumulates no violations and resolves with
the boolean `true` — the code's signal for the empty violation list. -/
theorem validateChain_untampered_resolves_true (hf : HashFn) (st : BCState)
    (h1 : st.height = (st.chain.length : Int) - 1)
    (h2 : UntamperedB hf st.chain = true) :
    validateChain hf st = .boolTrue := by
  unfold validateChain
  by_cases hemp : st.chain.length = 0
  · rw [if_pos (by rw [h1, hemp]; norm_num)]
  · have hlen : 0 < st.chain.length := by omega
    rw [if_neg (by rw [h1]; omega)]
    have hn : st.height.toNat = st.chain.length - 1 := by
      rw [h1]
      omega
    rw [hn]
    unfold valFold
    rw [errorLog_foldl (violationAt hf st.chain (st.chain.length - 1)) _ []
      (fun i hi => violationAt_isSome hf st.chain _ i (by omega)
        (Nat.lt_succ_iff.mp (List.mem_range.mp hi)))]
    have hfilter :
        ((List.range (st.chain.length - 1 + 1)).filter
          fun i => (violationAt hf st.chain (st.chain.length - 1) i).getD false) = [] :=
      List.filter_eq_nil_iff.mpr fun a ha => by
        rw [violationAt_untampered hf st.chain _ a (by omega)
          (Nat.lt_succ_iff.mp (List.mem_range.mp ha)) h2]
        simp
    rw [hfilter]
    rfl

theorem validateChain_untampered_resolves_true_witness :
    (stEx2.height = (stEx2.chain.length : Int) - 1) ∧
    (UntamperedB hfEx stEx2.chain = true) ∧
    validateChain hfEx stEx2 = .boolTrue :=
  ⟨by decide, by decide,
    validateChain_untampered_resolves_true hfEx stEx2 (by decide) (by decide)⟩

/-- C5 (counterexample): on the untampered two-block example chain,
`validateChain` does not resolve with an empty violation list: it resolves
with the boolean `true` instead (`resolve(true)` when `errorLog.length == 0`). -/
theorem validateChain_true_not_list_counterexample :
    UntamperedB hfEx stEx2.chain = true ∧
    validateChain hfEx stEx2 = .boolTrue ∧
    validateChain hfEx stEx2 ≠ .errors [] := by
  refine ⟨by decide, by decide, by decide⟩

/-- C6: `validateChain` walks the whole chain in one pass and accumulates,
in ascending index order, exactly the indices whose block fails `selfCheck`
— the last one included, checked for integrity only — or whose stored hash
differs from the successor's `previousBlockHash`; with no violation it
resolves with `true`, otherwise with the complete list. -/
theorem validateChain_collects_all_violations (hf : HashFn) (st : BCState)
    (h1 : st.height = (st.chain.length : Int) - 1) (h2 : st.chain ≠ []) :
    ∃ log : List Nat,
      validateChain hf st =
        (if log.isEmpty then ValidateResult.boolTrue else ValidateResult.errors log) ∧
      List.Pairwise (· < ·) log ∧
      ∀ i, i ∈ log ↔ ∃ b, st.chain[i]? = some b ∧
        (selfCheck hf b = false ∨
          ∃ b2, st.chain[i + 1]? = some b2 ∧ b2.previousBlockHash ≠ some b.hash) := by
  have hlen : 0 < st.chain.length := List.length_pos.mpr h2
  set n := st.chain.length - 1 with hdefn
  refine ⟨(List.range (n + 1)).filter
    (fun i => (violationAt hf st.chain n i).getD false), ?_, ?_, ?_⟩
  · unfold validateChain
    rw [if_neg (by rw [h1]; omega)]
    have hn : st.height.toNat = n := by
      rw [h1]
      omega
    rw [hn]
    unfold valFold
    rw [errorLog_foldl (violationAt hf st.chain n) _ []
      (fun i hi => violationAt_isSome hf st.chain n i (by omega)
        (Nat.lt_succ_iff.mp (List.mem_range.mp hi)))]
    rw [List.nil_append]
    cases hlog : (List.range (n + 1)).filter
        (fun i => (violationAt hf st.chain n i).getD false) with
    | nil => rfl
    | cons x xs => rfl
  · exact (List.pairwise_lt_range (n + 1)).sublist (List.filter_sublist _)
  · intro i
    constructor
    · intro hmem
      rw [List.mem_filter, List.mem_range] at hmem
      obtain ⟨hir, hp⟩ := hmem
      have hilt : i < st.chain.length := by omega
      have hb : st.chain[i]? = some st.chain[i] := List.getElem?_eq_getElem hilt
      refine ⟨st.chain[i], hb, ?_⟩
      unfold violationAt at hp
      rw [hb] at hp
      dsimp only at hp
      by_cases he : i = n
      · rw [if_pos he] at hp
        simp at hp
        exact Or.inl hp
      · rw [if_neg he] at hp
        have hi2 : i + 1 < st.chain.length := by omega
        rw [List.getElem?_eq_getElem hi2] at hp
        dsimp only at hp
        simp at hp
        cases hp with
        | inl h => exact Or.inl h
        | inr h => exact Or.inr ⟨st.chain[i + 1], List.getElem?_eq_getElem hi2, h⟩
    · rintro ⟨b, hb, hdis⟩
      have hilt : i < st.chain.length := by
        by_contra hcon
        rw [List.getElem?_eq_none_iff.mpr (by omega)] at hb
        exact absurd hb (by simp)
      rw [List.mem_filter, List.mem_range]
      refine ⟨by omega, ?_⟩
      have hbval : st.chain[i] = b := by
        rw [List.getElem?_eq_getElem hilt] at hb
        injection hb
      unfold violationAt
      rw [hb]
      dsimp only
      by_cases he : i = n
      · rw [if_pos he]
        cases hdis with
        | inl hsc => simp [hsc]
        | inr hex =>
          obtain ⟨b2, hb2, _⟩ := hex
          rw [List.getElem?_eq_none_iff.mpr (by omega)] at hb2
          exact absurd hb2 (by simp)
      · rw [if_neg he]
        have hi2 : i + 1 < st.chain.length := by omega
        rw [List.getElem?_eq_getElem hi2]
        dsimp only
        cases hdis with
        | inl hsc => simp [hsc]
        | inr hex =>
          obtain ⟨b2, hb2, hne⟩ := hex
          rw [List.getElem?_eq_getElem hi2] at hb2
          have hb2val : st.chain[i + 1] = b2 := by injection hb2
          simp [hb2val, hne]

theorem validateChain_collects_all_violations_witness :
    (stEx2.height = (stEx2.chain.length : Int) - 1) ∧ stEx2.chain ≠ [] ∧
    (∃ log : List Nat,
      validateChain hfEx stEx2 =
        (if log.isEmpty then ValidateResult.boolTrue else ValidateResult.errors log) ∧
      List.Pairwise (· < ·) log ∧
      ∀ i, i ∈ log ↔ ∃ b, stEx2.chain[i]? = some b ∧
        (selfCheck hfEx b = false ∨
          ∃ b2, stEx2.chain[i + 1]? = some b2 ∧ b2.previousBlockHash ≠ some b.hash)) :=
  ⟨by decide, by decide,
    validateChain_collects_all_violations hfEx stEx2 (by decide) (by decide)⟩

/-! ### The `getStarsByWalletAddress` loop -/

/-- The loop step on a block whose body decodes. -/
theorem starsStep_some (chain : List Block) (address : String)
    (acc : List (Option String × Option String)) (i : Nat) (b : Block) (o : ParsedBody)
    (hb : chain[i]? = some b) (ho : bodyParse b.body = some o) :
    starsStep chain address (some acc) i
      = some (if o.addr = some address then acc ++ [(o.addr, o.starField)] else acc) := by
  unfold starsStep
  rw [hb]
  dsimp only
  rw [ho]
  rfl

/-- As long as every visited block exists and decodes, the loop from index
`s` computes the filter-and-project of the corresponding chain segment, in
order. -/
theorem starsFold_loop (chain : List Block) (address : String) :
    ∀ (n s : Nat) (acc : List (Option String × Option String)),
      (∀ i, s ≤ i → i < s + n → ∃ b, chain[i]? = some b ∧ (bodyParse b.body).isSome) →
      (List.range' s n).foldl (starsStep chain address) (some acc)
        = some (acc ++ ((chain.drop s).take n).filterMap fun b =>
            (bodyParse b.body).bind fun o =>
              if o.addr = some address then some (o.addr, o.starField) else none) := by
  intro n
  induction n with
  | zero =>
    intro s acc _
    simp
  | succ m ih =>
    intro s acc hall
    obtain ⟨b, hb, hparse⟩ := hall s (le_refl s) (by omega)
    obtain ⟨o, ho⟩ := Option.isSome_iff_exists.mp hparse
    have hslt : s < chain.length := by
      by_contra hcon
      rw [List.getElem?_eq_none_iff.mpr (by omega)] at hb
      exact absurd hb (by simp)
    rw [show List.range' s (m + 1) = s :: List.range' (s + 1) m from rfl, List.foldl_cons,
      starsStep_some chain address acc s b o hb ho,
      ih (s + 1) _ (fun i hi1 hi2 => hall i (by omega) (by omega)),
      List.drop_eq_getElem_cons hslt]
    have hbeq : chain[s] = b := by
      rw [List.getElem?_eq_getElem hslt] at hb
      injection hb
    rw [hbeq, List.take_succ_cons]
    by_cases haddr : o.addr = some address
    · rw [if_pos haddr]
      simp [List.filterMap_cons, ho, haddr]
    · rw [if_neg haddr]
      simp [List.filterMap_cons, ho, haddr]

/-- C7: when every non-genesis body decodes, `getStarsByWalletAddress`
resolves with exactly the `{address, star}` records of the claims whose
decoded address equals the queried address, drawn from blocks 1 through the
last (genesis excluded) in ascending height order. -/
theorem getStars_filters_by_owner (st : BCState) (address : String)
    (h1 : st.height = (st.chain.length : Int) - 1)
    (h2 : ∀ b ∈ st.chain.drop 1, (bodyParse b.body).isSome) :
    getStarsByWalletAddress st address =
      .resolved ((st.chain.drop 1).filterMap fun b =>
        (bodyParse b.body).bind fun o =>
          if o.addr = some address then some (o.addr, o.starField) else none) := by
  unfold getStarsByWalletAddress starsFold
  by_cases hemp : st.chain.length = 0
  · have hz : st.height.toNat = 0 := by
      rw [h1]
      omega
    rw [hz, List.length_eq_zero.mp hemp]
    rfl
  · have hlen : 0 < st.chain.length := by omega
    have hn : st.height.toNat = st.chain.length - 1 := by
      rw [h1]
      omega
    have hall : ∀ i, 1 ≤ i → i < 1 + (st.chain.length - 1) →
        ∃ b, st.chain[i]? = some b ∧ (bodyParse b.body).isSome := by
      intro i hi1 hi2
      have hilt : i < st.chain.length := by omega
      refine ⟨st.chain[i], List.getElem?_eq_getElem hilt, ?_⟩
      have hmem : st.chain[i] ∈ st.chain.drop 1 :=
        List.mem_iff_getElem?.mpr ⟨i - 1, by
          rw [List.getElem?_drop, show 1 + (i - 1) = i from by omega,
            List.getElem?_eq_getElem hilt]⟩
      exact h2 _ hmem
    rw [hn, starsFold_loop st.chain address (st.chain.length - 1) 1 [] hall,
      List.nil_append, List.take_of_length_le (by simp [List.length_drop])]

theorem getStars_filters_by_owner_witness :
    (stEx2.height = (stEx2.chain.length : Int) - 1) ∧
    (∀ b ∈ stEx2.chain.drop 1, (bodyParse b.body).isSome) ∧
    getStarsByWalletAddress stEx2 "a" =
      .resolved ((stEx2.chain.drop 1).filterMap fun b =>
        (bodyParse b.body).bind fun o =>
          if o.addr = some "a" then some (o.addr, o.starField) else none) :=
  ⟨by decide, by decide, getStars_filters_by_owner stEx2 "a" (by decide) (by decide)⟩

/-- A ledger whose second block carries a body that does not decode
(data corruption after insertion). -/
def stCorrupt : BCState :=
  (_addBlock hfEx 9 stEx1 (mkBlock (.corrupt "deadbeef"))).1

/-- C8: on a chain containing a non-genesis block whose body fails to decode,
the owner query neither resolves nor rejects: `JSON.parse` throws inside the
`async` Promise executor, the throw is swallowed, `reject` is never called,
and the promise never settles — no `DecodeFailure` error reaches the
caller. -/
theorem getStars_corrupt_body_never_settles :
    getStarsByWalletAddress stCorrupt "a" = .stuck := by
  decide

end PrivateBlockchain
